import Mathlib

/-!
Verification of the altinn-app-insight acquisition pipeline and query engine
against its specification.  Each section embeds one part of the Python source
as executable Lean definitions and proves (or refutes) the specified
properties about them.

Section 1: the version helper, src/package/version.py.
-/

/-! ### The version-string regular expression

src/package/version.py line 5:
  VERSION_REGEX = r"^(\d+)(.(\d+))?(.(\d+))?(-(.+))?$"
(the dots before minor and patch are unescaped, so they match any character
except a newline).  Version.__init__ runs re.match of this pattern, so the
embedding below implements exactly this one pattern with the CPython
leftmost-greedy backtracking semantics: group 1 is a greedy digit run, the
two optional groups each match one arbitrary non-newline character followed
by a greedy digit run, the optional preview group matches a literal dash
followed by a greedy non-newline run, and the final anchor accepts either
the end of the string or a position just before a single trailing newline.
Alternatives are tried in CPython order: longer digit runs first, and each
optional group present before absent.
-/

/-- The groups captured by a successful match of VERSION_REGEX:
g1 is group(1) (major digits), g3 group(3) (minor digits), g5 group(5)
(patch digits), g7 group(7) (the preview text). -/
structure VMatch where
  g1 : List Char
  g3 : Option (List Char)
  g5 : Option (List Char)
  g7 : Option (List Char)
deriving DecidableEq, Repr

/-- All ways a greedy backslash-d-plus can split the input: the nonempty
prefixes of the maximal leading digit run, longest first (CPython tries the
greedy choice first and gives back from the right). -/
def digitSplits (cs : List Char) : List (List Char × List Char) :=
  let run := cs.takeWhile (fun c => c.isDigit)
  let rest := cs.dropWhile (fun c => c.isDigit)
  (List.range run.length).map (fun i => (run.take (run.length - i), run.drop (run.length - i) ++ rest))

/-- All ways a greedy dot-plus can split the input: the nonempty prefixes of
the maximal leading non-newline run, longest first. -/
def anyCharSplits (cs : List Char) : List (List Char × List Char) :=
  let run := cs.takeWhile (fun c => c ≠ '\n')
  let rest := cs.dropWhile (fun c => c ≠ '\n')
  (List.range run.length).map (fun i => (run.take (run.length - i), run.drop (run.length - i) ++ rest))

/-- The dollar anchor of CPython re: end of string, or just before one
trailing newline. -/
def dollarOk : List Char → Bool
  | [] => true
  | ['\n'] => true
  | _ => false

/-- Matches the tail pattern of VERSION_REGEX consisting of the optional
preview group followed by the dollar anchor; returns group(7). -/
def tryPreview (cs : List Char) : Option (Option (List Char)) :=
  (match cs with
    | '-' :: rest =>
      (anyCharSplits rest).findSome? (fun (pr : List Char × List Char) =>
        if dollarOk pr.2 then some (some pr.1) else none)
    | _ => none).orElse
    (fun _ => if dollarOk cs then some none else none)

/-- Matches the optional patch group (one arbitrary non-newline character,
then digits) followed by the preview tail; returns (group(5), group(7)). -/
def tryPatch (cs : List Char) : Option (Option (List Char) × Option (List Char)) :=
  (match cs with
    | c :: rest =>
      if c = '\n' then none
      else (digitSplits rest).findSome? (fun (pr : List Char × List Char) =>
        (tryPreview pr.2).map (fun g7 => (some pr.1, g7)))
    | [] => none).orElse
    (fun _ => (tryPreview cs).map (fun g7 => (none, g7)))

/-- Matches the optional minor group followed by the rest of the pattern;
returns (group(3), group(5), group(7)). -/
def tryMinor (cs : List Char) :
    Option (Option (List Char) × Option (List Char) × Option (List Char)) :=
  (match cs with
    | c :: rest =>
      if c = '\n' then none
      else (digitSplits rest).findSome? (fun (pr : List Char × List Char) =>
        (tryPatch pr.2).map (fun g => (some pr.1, g)))
    | [] => none).orElse
    (fun _ => (tryPatch cs).map (fun g => (none, g)))

/-- re.match(VERSION_REGEX, s): the whole-pattern match with CPython
backtracking order, yielding the captured groups. -/
def matchVersion (s : String) : Option VMatch :=
  (digitSplits s.data).findSome? (fun (pr : List Char × List Char) =>
    (tryMinor pr.2).map (fun g => ⟨pr.1, g.1, g.2.1, g.2.2⟩))

/-- Numeric value of a digit run, as produced by int() on the group text. -/
def digitsVal (ds : List Char) : Int :=
  (ds.foldl (fun a c => a * 10 + (c.toNat - 48)) 0 : Nat)

/-! ### NullableInt, src/package/version.py lines 8-48

A NullableInt wraps an optional integer value; we embed it as Option Int.
Its comparison methods return False whenever either value is missing.  Note
that the class spells the last two methods double-underscore-lte and
double-underscore-gte, which are not CPython comparison hooks; they are
embedded below as ordinary functions and are not reachable from the
less-or-equal / greater-or-equal operators (see the adapter dispatch model
in the content-adapter section).
-/

namespace NullableInt

/-- NullableInt equality: underlying values compared, None equal to None. -/
def eq (a b : Option Int) : Bool := a == b

/-- NullableInt less-than: False when either value is None. -/
def lt (a b : Option Int) : Bool :=
  match a, b with
  | some x, some y => decide (x < y)
  | _, _ => false

/-- NullableInt greater-than: False when either value is None. -/
def gt (a b : Option Int) : Bool :=
  match a, b with
  | some x, some y => decide (x > y)
  | _, _ => false

/-- The method the source spells double-underscore-lte (not an operator
hook; dead code as far as the comparison operators are concerned). -/
def lte (a b : Option Int) : Bool :=
  match a, b with
  | some x, some y => decide (x ≤ y)
  | _, _ => false

/-- The method the source spells double-underscore-gte (not an operator
hook). -/
def gte (a b : Option Int) : Bool :=
  match a, b with
  | some x, some y => decide (x ≥ y)
  | _, _ => false

end NullableInt

/-! ### Version, src/package/version.py lines 51-159

A Version stores its optional raw string; the match and the component
fields are computed from it exactly as in Version.__init__.  Two points of
the source matter for the embedding of the comparisons:

* self.major / self.minor / self.patch are always NullableInt objects, so
  the in-source checks of the form "self.minor is None" inside the lt and
  gt bodies are identity tests against an object that is never None: those
  branches are unreachable, and the comparison falls through to the
  NullableInt operator, which returns False when either side is missing.
* self.preview is a plain optional string (match.group(7)), so the
  "is None" checks in the preview block are live.
-/

structure Version where
  versionString : Option String
deriving DecidableEq

/-- Convenience constructor for a Version built from a present string. -/
def Version.ofString (s : String) : Version := ⟨some s⟩

/-- The stored re.match result of Version.__init__. -/
def Version.vmatch (v : Version) : Option VMatch :=
  v.versionString.bind matchVersion

/-- The source property named exists: the match succeeded. -/
def Version.vexists (v : Version) : Bool := v.vmatch.isSome

/-- self.major, the NullableInt value of group(1). -/
def Version.major (v : Version) : Option Int :=
  v.vmatch.map (fun m => digitsVal m.g1)

/-- self.minor, the NullableInt value of group(3). -/
def Version.minor (v : Version) : Option Int :=
  v.vmatch.bind (fun m => m.g3.map (fun d => digitsVal d))

/-- self.patch, the NullableInt value of group(5). -/
def Version.patch (v : Version) : Option Int :=
  v.vmatch.bind (fun m => m.g5.map (fun d => digitsVal d))

/-- self.preview, the plain optional string group(7). -/
def Version.preview (v : Version) : Option (List Char) :=
  v.vmatch.bind (fun m => m.g7)

/-- Version.__lt__ (version.py lines 91-122).  The minor/patch blocks reduce
to the NullableInt less-than because the "is None" identity checks never
fire; in the preview block, when the previews differ the result is True
exactly when the left preview is missing (a missing preview compares below
a present one, and two distinct present previews fall through to False). -/
def Version.lt (v w : Version) : Bool :=
  if !v.vexists || !w.vexists then false
  else if !NullableInt.eq v.major w.major then NullableInt.lt v.major w.major
  else if !NullableInt.eq v.minor w.minor then NullableInt.lt v.minor w.minor
  else if !NullableInt.eq v.patch w.patch then NullableInt.lt v.patch w.patch
  else if v.preview ≠ w.preview then
    if v.preview = none then true
    else if w.preview = none then false
    else false
  else false

/-- Version.__gt__ (version.py lines 124-155), mirror image of lt. -/
def Version.gt (v w : Version) : Bool :=
  if !v.vexists || !w.vexists then false
  else if !NullableInt.eq v.major w.major then NullableInt.gt v.major w.major
  else if !NullableInt.eq v.minor w.minor then NullableInt.gt v.minor w.minor
  else if !NullableInt.eq v.patch w.patch then NullableInt.gt v.patch w.patch
  else if v.preview ≠ w.preview then
    if v.preview = none then false
    else if w.preview = none then true
    else false
  else false

/-- Version.__eq__ (lines 84-89): raw string identity, False when either
side fails to parse. -/
def Version.eq (v w : Version) : Bool :=
  if !v.vexists || !w.vexists then false
  else v.versionString == w.versionString

/-- Version.__ne__ (lines 77-82): raw string difference, False when either
side fails to parse. -/
def Version.ne (v w : Version) : Bool :=
  if !v.vexists || !w.vexists then false
  else v.versionString != w.versionString

/-- Version.__le__ (lines 63-68). -/
def Version.le (v w : Version) : Bool :=
  if !v.vexists || !w.vexists then false
  else Version.eq v w || Version.lt v w

/-- Version.__ge__ (lines 70-75). -/
def Version.ge (v w : Version) : Bool :=
  if !v.vexists || !w.vexists then false
  else Version.eq v w || Version.gt v w

/-! ### Order-theoretic facts about NullableInt comparisons -/

theorem NullableInt.eq_true_iff {a b : Option Int} : NullableInt.eq a b = true ↔ a = b := by
  simp [NullableInt.eq]

theorem NullableInt.lt_true_iff {a b : Option Int} :
    NullableInt.lt a b = true ↔ ∃ x y, a = some x ∧ b = some y ∧ x < y := by
  cases a <;> cases b <;> simp [NullableInt.lt]

theorem NullableInt.gt_true_iff {a b : Option Int} :
    NullableInt.gt a b = true ↔ ∃ x y, a = some x ∧ b = some y ∧ y < x := by
  cases a <;> cases b <;> simp [NullableInt.gt]

theorem NullableInt.lt_self (a : Option Int) : NullableInt.lt a a = false := by
  cases a <;> simp [NullableInt.lt]

theorem NullableInt.gt_self (a : Option Int) : NullableInt.gt a a = false := by
  cases a <;> simp [NullableInt.gt]

theorem NullableInt.lt_asymm {a b : Option Int}
    (h1 : NullableInt.lt a b = true) (h2 : NullableInt.lt b a = true) : False := by
  rw [NullableInt.lt_true_iff] at h1 h2
  obtain ⟨x, y, rfl, rfl, hxy⟩ := h1
  obtain ⟨y', x', hy, hx, hyx⟩ := h2
  rw [Option.some_inj] at hy hx
  omega

theorem NullableInt.lt_trans {a b c : Option Int}
    (h1 : NullableInt.lt a b = true) (h2 : NullableInt.lt b c = true) :
    NullableInt.lt a c = true := by
  rw [NullableInt.lt_true_iff] at h1 h2 ⊢
  obtain ⟨x, y, rfl, rfl, hxy⟩ := h1
  obtain ⟨y', z, hy, rfl, hyz⟩ := h2
  rw [Option.some_inj] at hy
  exact ⟨x, z, rfl, rfl, by omega⟩

theorem NullableInt.lt_ne {a b : Option Int} (h : NullableInt.lt a b = true) : a ≠ b := by
  rw [NullableInt.lt_true_iff] at h
  obtain ⟨x, y, rfl, rfl, hxy⟩ := h
  simp
  omega

/-! ### Characterizations of the Version comparisons -/

/-- What Version.__lt__ returning True means in terms of the parsed
components: decided at the first level where the components differ; at the
minor and patch levels both sides must be present; at the preview level the
left side must be the missing one. -/
def LtSpec (v w : Version) : Prop :=
  v.vexists = true ∧ w.vexists = true ∧
    (NullableInt.lt v.major w.major = true ∨
     (v.major = w.major ∧ NullableInt.lt v.minor w.minor = true) ∨
     (v.major = w.major ∧ v.minor = w.minor ∧ NullableInt.lt v.patch w.patch = true) ∨
     (v.major = w.major ∧ v.minor = w.minor ∧ v.patch = w.patch ∧
      v.preview = none ∧ w.preview ≠ none))

/-- What Version.__gt__ returning True means: mirror image of LtSpec, with
the right side missing at the preview level. -/
def GtSpec (v w : Version) : Prop :=
  v.vexists = true ∧ w.vexists = true ∧
    (NullableInt.gt v.major w.major = true ∨
     (v.major = w.major ∧ NullableInt.gt v.minor w.minor = true) ∨
     (v.major = w.major ∧ v.minor = w.minor ∧ NullableInt.gt v.patch w.patch = true) ∨
     (v.major = w.major ∧ v.minor = w.minor ∧ v.patch = w.patch ∧
      v.preview ≠ none ∧ w.preview = none))

theorem NullableInt.eq_self (a : Option Int) : NullableInt.eq a a = true := by
  simp [NullableInt.eq]

theorem version_lt_iff_ltSpec (v w : Version) : Version.lt v w = true ↔ LtSpec v w := by
  unfold Version.lt LtSpec
  by_cases hv : v.vexists <;> by_cases hw : w.vexists <;> simp [hv, hw]
  by_cases hM : NullableInt.eq v.major w.major
  case neg =>
    have hM' : v.major ≠ w.major := fun h => hM (NullableInt.eq_true_iff.mpr h)
    simp [hM, hM']
  case pos =>
    have hM' : v.major = w.major := NullableInt.eq_true_iff.mp hM
    by_cases hm : NullableInt.eq v.minor w.minor
    case neg =>
      have hm' : v.minor ≠ w.minor := fun h => hm (NullableInt.eq_true_iff.mpr h)
      simp [hM, hm, hM', hm', NullableInt.eq_self, NullableInt.lt_self]
    case pos =>
      have hm' : v.minor = w.minor := NullableInt.eq_true_iff.mp hm
      by_cases hp : NullableInt.eq v.patch w.patch
      case neg =>
        have hp' : v.patch ≠ w.patch := fun h => hp (NullableInt.eq_true_iff.mpr h)
        simp [hM, hm, hp, hM', hm', hp', NullableInt.eq_self, NullableInt.lt_self]
      case pos =>
        have hp' : v.patch = w.patch := NullableInt.eq_true_iff.mp hp
        by_cases hpre : v.preview = w.preview
        case pos =>
          simp [hM, hm, hp, hM', hm', hp', hpre, NullableInt.eq_self, NullableInt.lt_self]
        case neg =>
          by_cases hvp : v.preview = none
          case pos =>
            have hwp : w.preview ≠ none := by
              rw [← hvp]
              exact fun h => hpre h.symm
            simp [hM, hm, hp, hM', hm', hp', hpre, hvp, hwp, NullableInt.eq_self,
              NullableInt.lt_self]
            exact Ne.symm hwp
          case neg =>
            simp [hM, hm, hp, hM', hm', hp', hpre, hvp, NullableInt.eq_self,
              NullableInt.lt_self]

theorem version_gt_iff_gtSpec (v w : Version) : Version.gt v w = true ↔ GtSpec v w := by
  unfold Version.gt GtSpec
  by_cases hv : v.vexists <;> by_cases hw : w.vexists <;> simp [hv, hw]
  by_cases hM : NullableInt.eq v.major w.major
  case neg =>
    have hM' : v.major ≠ w.major := fun h => hM (NullableInt.eq_true_iff.mpr h)
    simp [hM, hM']
  case pos =>
    have hM' : v.major = w.major := NullableInt.eq_true_iff.mp hM
    by_cases hm : NullableInt.eq v.minor w.minor
    case neg =>
      have hm' : v.minor ≠ w.minor := fun h => hm (NullableInt.eq_true_iff.mpr h)
      simp [hM, hm, hM', hm', NullableInt.eq_self, NullableInt.gt_self]
    case pos =>
      have hm' : v.minor = w.minor := NullableInt.eq_true_iff.mp hm
      by_cases hp : NullableInt.eq v.patch w.patch
      case neg =>
        have hp' : v.patch ≠ w.patch := fun h => hp (NullableInt.eq_true_iff.mpr h)
        simp [hM, hm, hp, hM', hm', hp', NullableInt.eq_self, NullableInt.gt_self]
      case pos =>
        have hp' : v.patch = w.patch := NullableInt.eq_true_iff.mp hp
        by_cases hpre : v.preview = w.preview
        case pos =>
          simp [hM, hm, hp, hM', hm', hp', hpre, NullableInt.eq_self, NullableInt.gt_self]
        case neg =>
          by_cases hvp : v.preview = none
          case pos =>
            have hwp : w.preview ≠ none := by
              rw [← hvp]
              exact fun h => hpre h.symm
            simp [hM, hm, hp, hM', hm', hp', hpre, hvp, hwp, NullableInt.eq_self,
              NullableInt.gt_self]
          case neg =>
            simp [hM, hm, hp, hM', hm', hp', hpre, hvp, NullableInt.eq_self,
              NullableInt.gt_self]

/-- Equal Version objects (string identity plus both parseable) have equal
parsed components. -/
theorem Version.eq_components {v w : Version} (h : Version.eq v w = true) :
    v.major = w.major ∧ v.minor = w.minor ∧ v.patch = w.patch ∧ v.preview = w.preview := by
  unfold Version.eq at h
  by_cases hv : v.vexists <;> by_cases hw : w.vexists <;> simp [hv, hw] at h
  have hs : v.versionString = w.versionString := h
  have hmatch : v.vmatch = w.vmatch := by
    unfold Version.vmatch
    rw [hs]
  unfold Version.major Version.minor Version.patch Version.preview
  rw [hmatch]
  exact ⟨rfl, rfl, rfl, rfl⟩

/-! ### Order properties of the Version comparisons (claims about V4/V5) -/

theorem version_lt_asymm {v w : Version}
    (h1 : Version.lt v w = true) (h2 : Version.lt w v = true) : False := by
  rw [version_lt_iff_ltSpec] at h1 h2
  obtain ⟨-, -, d1⟩ := h1
  obtain ⟨-, -, d2⟩ := h2
  rcases d1 with h1 | ⟨e1, h1⟩ | ⟨e1, f1, h1⟩ | ⟨e1, f1, g1, p1, q1⟩ <;>
    rcases d2 with h2 | ⟨e2, h2⟩ | ⟨e2, f2, h2⟩ | ⟨e2, f2, g2, p2, q2⟩
  · exact NullableInt.lt_asymm h1 h2
  · rw [e2] at h1
    simp [NullableInt.lt_self] at h1
  · rw [e2] at h1
    simp [NullableInt.lt_self] at h1
  · rw [e2] at h1
    simp [NullableInt.lt_self] at h1
  · rw [← e1] at h2
    simp [NullableInt.lt_self] at h2
  · exact NullableInt.lt_asymm h1 h2
  · rw [f2] at h1
    simp [NullableInt.lt_self] at h1
  · rw [f2] at h1
    simp [NullableInt.lt_self] at h1
  · rw [← e1] at h2
    simp [NullableInt.lt_self] at h2
  · rw [← f1] at h2
    simp [NullableInt.lt_self] at h2
  · exact NullableInt.lt_asymm h1 h2
  · rw [g2] at h1
    simp [NullableInt.lt_self] at h1
  · rw [← e1] at h2
    simp [NullableInt.lt_self] at h2
  · rw [← f1] at h2
    simp [NullableInt.lt_self] at h2
  · rw [← g1] at h2
    simp [NullableInt.lt_self] at h2
  · exact q2 p1

theorem version_lt_not_eq {v w : Version}
    (h1 : Version.lt v w = true) (h2 : Version.eq v w = true) : False := by
  obtain ⟨hM, hm, hp, hpre⟩ := Version.eq_components h2
  rw [version_lt_iff_ltSpec] at h1
  obtain ⟨-, -, d1⟩ := h1
  rcases d1 with h1 | ⟨e1, h1⟩ | ⟨e1, f1, h1⟩ | ⟨e1, f1, g1, p1, q1⟩
  · rw [hM] at h1
    simp [NullableInt.lt_self] at h1
  · rw [hm] at h1
    simp [NullableInt.lt_self] at h1
  · rw [hp] at h1
    simp [NullableInt.lt_self] at h1
  · exact q1 (hpre ▸ p1)

theorem version_lt_trans {v w u : Version}
    (h1 : Version.lt v w = true) (h2 : Version.lt w u = true) : Version.lt v u = true := by
  rw [version_lt_iff_ltSpec] at h1 h2 ⊢
  obtain ⟨hv1, hw1, d1⟩ := h1
  obtain ⟨hw2, hu2, d2⟩ := h2
  refine ⟨hv1, hu2, ?_⟩
  rcases d1 with h1 | ⟨e1, h1⟩ | ⟨e1, f1, h1⟩ | ⟨e1, f1, g1, p1, q1⟩ <;>
    rcases d2 with h2 | ⟨e2, h2⟩ | ⟨e2, f2, h2⟩ | ⟨e2, f2, g2, p2, q2⟩
  · exact Or.inl (NullableInt.lt_trans h1 h2)
  · exact Or.inl (e2 ▸ h1)
  · exact Or.inl (e2 ▸ h1)
  · exact Or.inl (e2 ▸ h1)
  · exact Or.inl (by rw [e1]; exact h2)
  · exact Or.inr (Or.inl ⟨e1.trans e2, NullableInt.lt_trans h1 h2⟩)
  · exact Or.inr (Or.inl ⟨e1.trans e2, f2 ▸ h1⟩)
  · exact Or.inr (Or.inl ⟨e1.trans e2, f2 ▸ h1⟩)
  · exact Or.inl (by rw [e1]; exact h2)
  · exact Or.inr (Or.inl ⟨e1.trans e2, by rw [f1]; exact h2⟩)
  · exact Or.inr (Or.inr (Or.inl ⟨e1.trans e2, f1.trans f2, NullableInt.lt_trans h1 h2⟩))
  · exact Or.inr (Or.inr (Or.inl ⟨e1.trans e2, f1.trans f2, g2 ▸ h1⟩))
  · exact Or.inl (by rw [e1]; exact h2)
  · exact Or.inr (Or.inl ⟨e1.trans e2, by rw [f1]; exact h2⟩)
  · exact Or.inr (Or.inr (Or.inl ⟨e1.trans e2, f1.trans f2, by rw [g1]; exact h2⟩))
  · exact absurd p2 q1

theorem version_cmp_false_of_unparseable {v w : Version}
    (h : v.vexists = false ∨ w.vexists = false) :
    Version.eq v w = false ∧ Version.ne v w = false ∧ Version.lt v w = false ∧
      Version.gt v w = false ∧ Version.le v w = false ∧ Version.ge v w = false := by
  rcases h with h | h <;>
    simp [Version.eq, Version.ne, Version.lt, Version.gt, Version.le, Version.ge, h]

/-- C2: on parseable versions the Version order is antisymmetric (no pair is
less-than in both directions, and no pair is simultaneously less-than and
string-equal) and transitive; and whenever either operand is unparseable,
every one of the six comparison operators returns False. -/
theorem C2_version_order_properties (v w u : Version) :
    (¬ (Version.lt v w = true ∧ Version.lt w v = true)) ∧
    (¬ (Version.lt v w = true ∧ Version.eq v w = true)) ∧
    (Version.lt v w = true → Version.lt w u = true → Version.lt v u = true) ∧
    ((v.vexists = false ∨ w.vexists = false) →
      Version.eq v w = false ∧ Version.ne v w = false ∧ Version.lt v w = false ∧
        Version.gt v w = false ∧ Version.le v w = false ∧ Version.ge v w = false) := by
  refine ⟨fun h => version_lt_asymm h.1 h.2, fun h => version_lt_not_eq h.1 h.2,
    fun h1 h2 => version_lt_trans h1 h2, fun h => version_cmp_false_of_unparseable h⟩

/-- Witness for the C2 theorem at concrete versions. -/
theorem C2_version_order_properties_witness :
    Version.lt (Version.ofString "4.17.0") (Version.ofString "4.19.0") = true ∧
    Version.eq (Version.ofString "not a version") (Version.ofString "not a version") = false := by
  constructor
  · exact (C2_version_order_properties (Version.ofString "4.17.0") (Version.ofString "4.18.0")
      (Version.ofString "4.19.0")).2.2.1 (by decide) (by decide)
  · exact ((C2_version_order_properties (Version.ofString "not a version")
      (Version.ofString "not a version") (Version.ofString "not a version")).2.2.2
      (Or.inl (by decide))).1

/-- C1 counterexample: the chain claimed by the specification fails on the
code.  None of the greater-than comparisons 4 over 4.18, 4.18 over 4.18.0,
4.18.0 over 4.18.0-rc holds (a missing minor or patch makes the NullableInt
comparison return False on both sides), and 4.18.0 compares strictly below
4.18.0-rc (a missing preview is less than a present one), the opposite of
the claimed direction. -/
theorem C1_counterexample :
    Version.gt (Version.ofString "4") (Version.ofString "4.18") = false ∧
    Version.gt (Version.ofString "4.18") (Version.ofString "4.18.0") = false ∧
    Version.gt (Version.ofString "4.18.0") (Version.ofString "4.18.0-rc") = false ∧
    Version.lt (Version.ofString "4.18.0") (Version.ofString "4.18.0-rc") = true := by
  decide

/-- C1 amended: comparison proceeds major, then minor, then patch, then
preview, decided at the first level where the components differ; a missing
minor or patch on either side makes both strict comparisons False
(incomparable), present minors/patches compare numerically, and at the
preview level the version with the missing preview is the smaller one
(distinct present previews are incomparable). -/
theorem C1_amended_missing_component_order (v w : Version)
    (hv : v.vexists = true) (hw : w.vexists = true) :
    (v.major = w.major → v.minor ≠ w.minor → (v.minor = none ∨ w.minor = none) →
      Version.lt v w = false ∧ Version.gt v w = false) ∧
    (v.major = w.major → v.minor = w.minor → v.patch ≠ w.patch →
      (v.patch = none ∨ w.patch = none) →
      Version.lt v w = false ∧ Version.gt v w = false) ∧
    (v.major = w.major → v.minor = w.minor → v.patch = w.patch → v.preview ≠ w.preview →
      ((Version.lt v w = true ↔ v.preview = none) ∧
       (Version.gt v w = true ↔ w.preview = none))) ∧
    (∀ x y : Int, v.major = w.major → v.minor = some x → w.minor = some y → x ≠ y →
      Version.lt v w = decide (x < y) ∧ Version.gt v w = decide (y < x)) ∧
    (∀ x y : Int, v.major = w.major → v.minor = w.minor → v.patch = some x →
      w.patch = some y → x ≠ y →
      Version.lt v w = decide (x < y) ∧ Version.gt v w = decide (y < x)) := by
  refine ⟨?_, ?_, ?_, ?_, ?_⟩
  · intro hM hm hnone
    constructor
    · rw [Bool.eq_false_iff]
      intro h
      rw [version_lt_iff_ltSpec] at h
      obtain ⟨-, -, d⟩ := h
      rcases d with h | ⟨e, h⟩ | ⟨e, f, h⟩ | ⟨e, f, g, p, q⟩
      · rw [hM] at h
        simp [NullableInt.lt_self] at h
      · rw [NullableInt.lt_true_iff] at h
        obtain ⟨x, y, hx, hy, -⟩ := h
        rcases hnone with hn | hn <;> simp [hn] at hx hy
      · exact hm f
      · exact hm f
    · rw [Bool.eq_false_iff]
      intro h
      rw [version_gt_iff_gtSpec] at h
      obtain ⟨-, -, d⟩ := h
      rcases d with h | ⟨e, h⟩ | ⟨e, f, h⟩ | ⟨e, f, g, p, q⟩
      · rw [hM] at h
        simp [NullableInt.gt_self] at h
      · rw [NullableInt.gt_true_iff] at h
        obtain ⟨x, y, hx, hy, -⟩ := h
        rcases hnone with hn | hn <;> simp [hn] at hx hy
      · exact hm f
      · exact hm f
  · intro hM hm hp hnone
    constructor
    · rw [Bool.eq_false_iff]
      intro h
      rw [version_lt_iff_ltSpec] at h
      obtain ⟨-, -, d⟩ := h
      rcases d with h | ⟨e, h⟩ | ⟨e, f, h⟩ | ⟨e, f, g, p, q⟩
      · rw [hM] at h
        simp [NullableInt.lt_self] at h
      · rw [hm] at h
        simp [NullableInt.lt_self] at h
      · rw [NullableInt.lt_true_iff] at h
        obtain ⟨x, y, hx, hy, -⟩ := h
        rcases hnone with hn | hn <;> simp [hn] at hx hy
      · exact hp g
    · rw [Bool.eq_false_iff]
      intro h
      rw [version_gt_iff_gtSpec] at h
      obtain ⟨-, -, d⟩ := h
      rcases d with h | ⟨e, h⟩ | ⟨e, f, h⟩ | ⟨e, f, g, p, q⟩
      · rw [hM] at h
        simp [NullableInt.gt_self] at h
      · rw [hm] at h
        simp [NullableInt.gt_self] at h
      · rw [NullableInt.gt_true_iff] at h
        obtain ⟨x, y, hx, hy, -⟩ := h
        rcases hnone with hn | hn <;> simp [hn] at hx hy
      · exact hp g
  · intro hM hm hp hpre
    constructor
    · constructor
      · intro h
        rw [version_lt_iff_ltSpec] at h
        obtain ⟨-, -, d⟩ := h
        rcases d with h | ⟨e, h⟩ | ⟨e, f, h⟩ | ⟨e, f, g, p, q⟩
        · rw [hM] at h
          simp [NullableInt.lt_self] at h
        · rw [hm] at h
          simp [NullableInt.lt_self] at h
        · rw [hp] at h
          simp [NullableInt.lt_self] at h
        · exact p
      · intro h
        rw [version_lt_iff_ltSpec]
        refine ⟨hv, hw, Or.inr (Or.inr (Or.inr ⟨hM, hm, hp, h, ?_⟩))⟩
        rw [← h]
        exact fun hc => hpre hc.symm
    · constructor
      · intro h
        rw [version_gt_iff_gtSpec] at h
        obtain ⟨-, -, d⟩ := h
        rcases d with h | ⟨e, h⟩ | ⟨e, f, h⟩ | ⟨e, f, g, p, q⟩
        · rw [hM] at h
          simp [NullableInt.gt_self] at h
        · rw [hm] at h
          simp [NullableInt.gt_self] at h
        · rw [hp] at h
          simp [NullableInt.gt_self] at h
        · exact q
      · intro h
        rw [version_gt_iff_gtSpec]
        refine ⟨hv, hw, Or.inr (Or.inr (Or.inr ⟨hM, hm, hp, ?_, h⟩))⟩
        rw [← h]
        exact hpre
  · intro x y hM hx hy hxy
    constructor
    · by_cases hlt : x < y
      case pos =>
        simp only [hlt, decide_True]
        rw [version_lt_iff_ltSpec]
        exact ⟨hv, hw, Or.inr (Or.inl ⟨hM, NullableInt.lt_true_iff.mpr ⟨x, y, hx, hy, hlt⟩⟩)⟩
      case neg =>
        simp only [hlt, decide_False]
        rw [Bool.eq_false_iff]
        intro h
        rw [version_lt_iff_ltSpec] at h
        obtain ⟨-, -, d⟩ := h
        rcases d with h | ⟨e, h⟩ | ⟨e, f, h⟩ | ⟨e, f, g, p, q⟩
        · rw [hM] at h
          simp [NullableInt.lt_self] at h
        · rw [NullableInt.lt_true_iff] at h
          obtain ⟨a, b, ha, hb, hab⟩ := h
          rw [hx] at ha
          rw [hy] at hb
          rw [Option.some_inj] at ha hb
          omega
        · rw [hx, hy] at f
          rw [Option.some_inj] at f
          exact hxy f
        · rw [hx, hy] at f
          rw [Option.some_inj] at f
          exact hxy f
    · by_cases hgt : y < x
      case pos =>
        simp only [hgt, decide_True]
        rw [version_gt_iff_gtSpec]
        exact ⟨hv, hw, Or.inr (Or.inl ⟨hM, NullableInt.gt_true_iff.mpr ⟨x, y, hx, hy, hgt⟩⟩)⟩
      case neg =>
        simp only [hgt, decide_False]
        rw [Bool.eq_false_iff]
        intro h
        rw [version_gt_iff_gtSpec] at h
        obtain ⟨-, -, d⟩ := h
        rcases d with h | ⟨e, h⟩ | ⟨e, f, h⟩ | ⟨e, f, g, p, q⟩
        · rw [hM] at h
          simp [NullableInt.gt_self] at h
        · rw [NullableInt.gt_true_iff] at h
          obtain ⟨a, b, ha, hb, hab⟩ := h
          rw [hx] at ha
          rw [hy] at hb
          rw [Option.some_inj] at ha hb
          omega
        · rw [hx, hy] at f
          rw [Option.some_inj] at f
          exact hxy f
        · rw [hx, hy] at f
          rw [Option.some_inj] at f
          exact hxy f
  · intro x y hM hm hx hy hxy
    constructor
    · by_cases hlt : x < y
      case pos =>
        simp only [hlt, decide_True]
        rw [version_lt_iff_ltSpec]
        exact ⟨hv, hw, Or.inr (Or.inr (Or.inl
          ⟨hM, hm, NullableInt.lt_true_iff.mpr ⟨x, y, hx, hy, hlt⟩⟩))⟩
      case neg =>
        simp only [hlt, decide_False]
        rw [Bool.eq_false_iff]
        intro h
        rw [version_lt_iff_ltSpec] at h
        obtain ⟨-, -, d⟩ := h
        rcases d with h | ⟨e, h⟩ | ⟨e, f, h⟩ | ⟨e, f, g, p, q⟩
        · rw [hM] at h
          simp [NullableInt.lt_self] at h
        · rw [hm] at h
          simp [NullableInt.lt_self] at h
        · rw [NullableInt.lt_true_iff] at h
          obtain ⟨a, b, ha, hb, hab⟩ := h
          rw [hx] at ha
          rw [hy] at hb
          rw [Option.some_inj] at ha hb
          omega
        · rw [hx, hy] at g
          rw [Option.some_inj] at g
          exact hxy g
    · by_cases hgt : y < x
      case pos =>
        simp only [hgt, decide_True]
        rw [version_gt_iff_gtSpec]
        exact ⟨hv, hw, Or.inr (Or.inr (Or.inl
          ⟨hM, hm, NullableInt.gt_true_iff.mpr ⟨x, y, hx, hy, hgt⟩⟩))⟩
      case neg =>
        simp only [hgt, decide_False]
        rw [Bool.eq_false_iff]
        intro h
        rw [version_gt_iff_gtSpec] at h
        obtain ⟨-, -, d⟩ := h
        rcases d with h | ⟨e, h⟩ | ⟨e, f, h⟩ | ⟨e, f, g, p, q⟩
        · rw [hM] at h
          simp [NullableInt.gt_self] at h
        · rw [hm] at h
          simp [NullableInt.gt_self] at h
        · rw [NullableInt.gt_true_iff] at h
          obtain ⟨a, b, ha, hb, hab⟩ := h
          rw [hx] at ha
          rw [hy] at hb
          rw [Option.some_inj] at ha hb
          omega
        · rw [hx, hy] at g
          rw [Option.some_inj] at g
          exact hxy g

/-- Witness for the amended C1 theorem at the concrete chain versions. -/
theorem C1_amended_missing_component_order_witness :
    (Version.lt (Version.ofString "4") (Version.ofString "4.18") = false ∧
     Version.gt (Version.ofString "4") (Version.ofString "4.18") = false) ∧
    Version.lt (Version.ofString "4.18.0") (Version.ofString "4.18.0-rc") = true := by
  constructor
  · exact (C1_amended_missing_component_order (Version.ofString "4") (Version.ofString "4.18")
      (by decide) (by decide)).1 (by decide) (by decide) (Or.inl (by decide))
  · exact ((C1_amended_missing_component_order (Version.ofString "4.18.0")
      (Version.ofString "4.18.0-rc") (by decide) (by decide)).2.2.1 (by decide) (by decide)
      (by decide) (by decide)).1.mpr (by decide)

/-! ### Content adapters and CPython comparison-operator dispatch

src/package/json.py (GenericJson, lines 50-76), src/package/text.py
(TextFile, lines 31-57), src/package/xml.py (Xml, lines 106-133) and
src/package/version.py (NullableInt, lines 22-48) all implement the same
family contract for comparisons.  Each class defines the methods
double-underscore lt, gt, eq, and two methods spelled double-underscore lte
and gte.  CPython resolves the operators through the hooks named
double-underscore lt/gt/le/ge only; lte and gte are not hooks.  The model
below embeds the method bodies and the CPython rich-comparison dispatch
(own hook first, then the reflected hook of the right operand, then
TypeError). -/

/-- Result of evaluating a CPython comparison operator: a boolean, or the
TypeError the interpreter raises when no hook is available. -/
inductive PyCmpResult where
  | val (b : Bool)
  | typeError
deriving DecidableEq, Repr

/-- The four ordering hooks a class defines (or not). -/
structure PyOrderingHooks (α : Type) where
  dunderLt : Option (α → α → Bool)
  dunderGt : Option (α → α → Bool)
  dunderLe : Option (α → α → Bool)
  dunderGe : Option (α → α → Bool)

/-- CPython a < b for two operands of the same class: the dunder lt hook if
defined, else the reflected dunder gt of the right operand, else TypeError. -/
def pyLess (h : PyOrderingHooks α) (a b : α) : PyCmpResult :=
  match h.dunderLt with
  | some f => .val (f a b)
  | none =>
    match h.dunderGt with
    | some f => .val (f b a)
    | none => .typeError

/-- CPython a > b. -/
def pyGreater (h : PyOrderingHooks α) (a b : α) : PyCmpResult :=
  match h.dunderGt with
  | some f => .val (f a b)
  | none =>
    match h.dunderLt with
    | some f => .val (f b a)
    | none => .typeError

/-- CPython a <= b: the dunder le hook, else the reflected dunder ge, else
TypeError. -/
def pyLessEq (h : PyOrderingHooks α) (a b : α) : PyCmpResult :=
  match h.dunderLe with
  | some f => .val (f a b)
  | none =>
    match h.dunderGe with
    | some f => .val (f b a)
    | none => .typeError

/-- CPython a >= b. -/
def pyGreaterEq (h : PyOrderingHooks α) (a b : α) : PyCmpResult :=
  match h.dunderGe with
  | some f => .val (f a b)
  | none =>
    match h.dunderLe with
    | some f => .val (f b a)
    | none => .typeError

/-- The hooks NullableInt actually defines (version.py 22-48): lt and gt
only; the methods spelled lte and gte are not operator hooks. -/
def NullableInt.hooks : PyOrderingHooks (Option Int) :=
  ⟨some NullableInt.lt, some NullableInt.gt, none, none⟩

/-- GenericJson.__lt__ (json.py 60-64): False when the left side has no
parsed document or the right side value is None, else passthrough to the
underlying value comparison (abstracted as an oracle on the value type). -/
def GenericJson.lt (valLt : J → J → Bool) (a b : Option J) : Bool :=
  match a, b with
  | some x, some y => valLt x y
  | _, _ => false

/-- GenericJson.__gt__ (json.py 54-58). -/
def GenericJson.gt (valGt : J → J → Bool) (a b : Option J) : Bool :=
  match a, b with
  | some x, some y => valGt x y
  | _, _ => false

/-- The method body GenericJson spells double-underscore-lte (json.py
72-76); not an operator hook. -/
def GenericJson.lte (valLe : J → J → Bool) (a b : Option J) : Bool :=
  match a, b with
  | some x, some y => valLe x y
  | _, _ => false

/-- The method body GenericJson spells double-underscore-gte (json.py
66-70); not an operator hook. -/
def GenericJson.gte (valGe : J → J → Bool) (a b : Option J) : Bool :=
  match a, b with
  | some x, some y => valGe x y
  | _, _ => false

/-- The hooks GenericJson defines: lt and gt only. -/
def GenericJson.hooks (valLt valGt : J → J → Bool) : PyOrderingHooks (Option J) :=
  ⟨some (GenericJson.lt valLt), some (GenericJson.gt valGt), none, none⟩

/-- TextFile.__lt__ (text.py 41-45): False when either text is missing,
else lexicographic string comparison. -/
def TextFile.lt (a b : Option String) : Bool :=
  match a, b with
  | some x, some y => decide (x < y)
  | _, _ => false

/-- TextFile.__gt__ (text.py 35-39). -/
def TextFile.gt (a b : Option String) : Bool :=
  match a, b with
  | some x, some y => decide (y < x)
  | _, _ => false

/-- The hooks TextFile defines: lt and gt only (the lte/gte spellings at
text.py 47-57 are not hooks). -/
def TextFile.hooks : PyOrderingHooks (Option String) :=
  ⟨some TextFile.lt, some TextFile.gt, none, none⟩

/-- Xml.__lt__ (xml.py 117-121): False when either element is missing, else
passthrough to the element comparison (abstracted as an oracle). -/
def Xml.lt (valLt : X → X → Bool) (a b : Option X) : Bool :=
  match a, b with
  | some x, some y => valLt x y
  | _, _ => false

/-- Xml.__gt__ (xml.py 111-115). -/
def Xml.gt (valGt : X → X → Bool) (a b : Option X) : Bool :=
  match a, b with
  | some x, some y => valGt x y
  | _, _ => false

/-- The hooks Xml defines: lt and gt only (the lte/gte spellings at xml.py
123-133 are not hooks). -/
def Xml.hooks (valLt valGt : X → X → Bool) : PyOrderingHooks (Option X) :=
  ⟨some (Xml.lt valLt), some (Xml.gt valGt), none, none⟩

/-- C8 evaluation: for every content adapter, less-than and greater-than do
return False when a side is missing, but less-or-equal and greater-or-equal
raise TypeError, because the classes define methods spelled lte/gte instead
of the CPython hooks le/ge.  The JSON and XML value comparisons are
instantiated with the integer order for the concrete evaluation. -/
theorem C8_le_ge_raise_typeError :
    (pyLess NullableInt.hooks none (some 1) = .val false ∧
     pyGreater NullableInt.hooks none (some 1) = .val false ∧
     pyLessEq NullableInt.hooks none (some 1) = .typeError ∧
     pyGreaterEq NullableInt.hooks none (some 1) = .typeError) ∧
    (pyLess (GenericJson.hooks (fun x y : Int => decide (x < y)) (fun x y : Int => decide (y < x)))
        none (some 1) = .val false ∧
     pyLessEq (GenericJson.hooks (fun x y : Int => decide (x < y)) (fun x y : Int => decide (y < x)))
        none (some 1) = .typeError ∧
     pyGreaterEq (GenericJson.hooks (fun x y : Int => decide (x < y)) (fun x y : Int => decide (y < x)))
        none (some 1) = .typeError) ∧
    (pyLess TextFile.hooks none (some "a") = .val false ∧
     pyGreater TextFile.hooks (some "a") none = .val false ∧
     pyLessEq TextFile.hooks none (some "a") = .typeError ∧
     pyGreaterEq TextFile.hooks none (some "a") = .typeError) ∧
    (pyLess (Xml.hooks (fun x y : Int => decide (x < y)) (fun x y : Int => decide (y < x)))
        none (some 1) = .val false ∧
     pyLessEq (Xml.hooks (fun x y : Int => decide (x < y)) (fun x y : Int => decide (y < x)))
        none (some 1) = .typeError ∧
     pyGreaterEq (Xml.hooks (fun x y : Int => decide (x < y)) (fun x y : Int => decide (y < x)))
        none (some 1) = .typeError) := by
  refine ⟨⟨rfl, rfl, rfl, rfl⟩, ⟨rfl, rfl, rfl⟩, ⟨rfl, rfl, rfl, rfl⟩, ⟨rfl, rfl, rfl⟩⟩

/-! ### The archive session of an App, src/package/apps.py

App.__init__ (lines 49-58) does not set the attribute named open; it is
first assigned by App.__enter__ (line 146).  The private file and zip-file
handles are class attributes initialized to None (line 142-143).  Reading
the open attribute on a fresh instance therefore raises AttributeError,
while after a with-block it is False and App.content raises the descriptive
session exception.  The session state is embedded as the optional open
attribute plus the two handle flags; each accessor returns the new state
and the exception it raises, if any. -/

/-- An exception raised by the App session discipline. -/
inductive PyErr where
  | attributeError
  | exception (msg : String)
deriving DecidableEq, Repr

/-- The mutable session state of one App object. -/
structure AppSession where
  openAttr : Option Bool
  fileHandle : Bool
  zipHandle : Bool
deriving DecidableEq, Repr

/-- A freshly constructed App: open attribute unset, no handles. -/
def App.initSession : AppSession := ⟨none, false, false⟩

/-- App.__enter__ (apps.py 145-147): sets open to True. -/
def App.enter (s : AppSession) : AppSession := { s with openAttr := some true }

/-- App.__exit__ (apps.py 149-156): sets open to False and closes and
clears both handles. -/
def App.exit (_ : AppSession) : AppSession := ⟨some false, false, false⟩

/-- App.content (apps.py 158-165): raises when the App is not open (an
AttributeError on a fresh instance, the descriptive exception after exit);
opens the file and zip handles on first access while open. -/
def App.content (s : AppSession) : AppSession × Option PyErr :=
  match s.openAttr with
  | none => (s, some .attributeError)
  | some false =>
    (s, some (.exception
      "Tried to access App.content without first opening the file using the with keyword"))
  | some true =>
    if s.zipHandle then (s, none)
    else ({ s with fileHandle := true, zipHandle := true }, none)

/-- App.files (apps.py 167-169): the name list of App.content, so it fails
exactly when App.content fails. -/
def App.files (s : AppSession) : AppSession × Option PyErr := App.content s

/-- App.with_data (apps.py 104-109): raises the copy-while-open exception
when open is True (and AttributeError on a fresh instance whose open
attribute is unset); otherwise returns a shallow copy carrying the same
closed session state. -/
def App.with_data (s : AppSession) : AppSession × Option PyErr :=
  match s.openAttr with
  | none => (s, some .attributeError)
  | some true =>
    (s, some (.exception
      "Attempted to copy an App object while open for reading, this could cause weird issues!"))
  | some false => (s, none)

/-- C7: session discipline.  Accessing content or files while the App is
not inside a with scope raises (and acquires no handle: the state is
unchanged), and copying an App while its session is open raises (again
leaving the state unchanged, so no handle is leaked in either case). -/
theorem C7_session_discipline (s : AppSession) :
    (s.openAttr ≠ some true →
      (∃ e, App.content s = (s, some e)) ∧ (∃ e, App.files s = (s, some e))) ∧
    (s.openAttr = some true →
      ∃ m, App.with_data s = (s, some (.exception m))) := by
  constructor
  · intro h
    have both : ∀ e, App.content s = (s, some e) →
        (∃ e, App.content s = (s, some e)) ∧ (∃ e, App.files s = (s, some e)) :=
      fun e he => ⟨⟨e, he⟩, ⟨e, by unfold App.files; exact he⟩⟩
    match hs : s.openAttr with
    | none => exact both .attributeError (by simp [App.content, hs])
    | some false =>
      exact both
        (.exception
          "Tried to access App.content without first opening the file using the with keyword")
        (by simp [App.content, hs])
    | some true => exact absurd hs h
  · intro h
    exact ⟨"Attempted to copy an App object while open for reading, this could cause weird issues!",
      by simp [App.with_data, h]⟩

/-- Witness for the C7 theorem at the fresh, exited and open session
states. -/
theorem C7_session_discipline_witness :
    (∃ e, App.content App.initSession = (App.initSession, some e)) ∧
    (∃ e, App.files (App.exit (App.enter App.initSession)) =
      (App.exit (App.enter App.initSession), some e)) ∧
    (∃ m, App.with_data (App.enter App.initSession) =
      (App.enter App.initSession, some (.exception m))) := by
  refine ⟨((C7_session_discipline App.initSession).1 (by decide)).1,
    ((C7_session_discipline (App.exit (App.enter App.initSession))).1 (by decide)).2,
    (C7_session_discipline (App.enter App.initSession)).2 (by decide)⟩

/-! ### Initialization of the query corpus, src/package/apps.py Apps.init -/

/-- One entry of the version lock file, src/package/repo.py LockData.  The
status field is kept as the raw JSON string compared against the literal
"success" by the consumers. -/
structure LockData where
  env : String
  org : String
  app : String
  version : String
  commit_sha : String
  status : String
  studio_env : String
deriving DecidableEq, Repr

/-- The App descriptor Apps.init builds from a successful lock entry
(apps.py 456-465). -/
structure AppDesc where
  env : String
  org : String
  app : String
  commit_sha : String
  studio_env : String
deriving DecidableEq, Repr

/-- The descriptor fields taken from a lock entry. -/
def mkAppDesc (ld : LockData) : AppDesc :=
  ⟨ld.env, ld.org, ld.app, ld.commit_sha, ld.studio_env⟩

/-- Apps.init (apps.py 443-469): iterate the lock values in order and
append an App descriptor for each entry whose status equals "success". -/
def Apps.init (lockValues : List LockData) : List AppDesc :=
  lockValues.foldl (fun apps ld => if ld.status = "success" then apps ++ [mkAppDesc ld] else apps) []

theorem Apps.init_foldl_general (lockValues : List LockData) (acc : List AppDesc) :
    lockValues.foldl
        (fun apps ld => if ld.status = "success" then apps ++ [mkAppDesc ld] else apps) acc =
      acc ++ (lockValues.filter (fun ld => ld.status == "success")).map mkAppDesc := by
  induction lockValues generalizing acc with
  | nil => simp
  | cons ld rest ih =>
    by_cases h : ld.status = "success"
    · simp [List.foldl_cons, List.filter_cons, h, ih]
    · simp [List.foldl_cons, List.filter_cons, h, ih]

/-- C10: the query corpus contains an App descriptor exactly for the lock
entries with status "success", in lock order: every entry with any other
status (in particular "failed") contributes no App, so failed apps are
invisible to the query frontend. -/
theorem C10_init_only_success (lockValues : List LockData) :
    Apps.init lockValues =
      (lockValues.filter (fun ld => ld.status == "success")).map mkAppDesc ∧
    (Apps.init lockValues).length =
      lockValues.countP (fun ld => ld.status == "success") := by
  constructor
  · exact Apps.init_foldl_general lockValues []
  · have h := Apps.init_foldl_general lockValues []
    unfold Apps.init
    rw [h]
    simp [List.countP_eq_length_filter]

/-! ### The bounded request broker, src/package/download.py

BaseQueryClient.fetch_json (lines 94-106) catches only httpx.ReadTimeout;
on a timeout it raises once the attempt counter reaches max_retries
(default 3), otherwise it sleeps one second and retries with an awaited
recursive call.  Every other exception propagates at once.

BaseQueryClient.download_file (lines 108-138) catches only
httpx.HTTPStatusError; read timeouts, transport errors and local disk-write
failures propagate at once.  A 404 status propagates; any other status
propagates once the attempt counter reaches max_retries; below the bound
the except branch evaluates
    return self.download_file(url, file_path, token, on_progress, attempt + 1)
without an await, so the coroutine object for the retry is constructed but
never executed, and the un-awaited coroutine becomes the ordinary
(non-exceptional) return value seen by the caller.  There is no sleep on
this path.

Each attempt is driven by an outcome oracle giving what the network and the
local disk do on that attempt, and each function also returns the trace of
broker actions (requests issued and one-second sleeps). -/

/-- What one fetch_json attempt encounters. -/
inductive FetchOutcome where
  | ok
  | readTimeout
  | otherError
deriving DecidableEq, Repr

/-- The failure fetch_json propagates. -/
inductive FetchErr where
  | readTimeout
  | other
deriving DecidableEq, Repr

/-- Broker-visible actions. -/
inductive BrokerAct where
  | request
  | sleepOneSecond
deriving DecidableEq, Repr

/-- BaseQueryClient.fetch_json (download.py 94-106). -/
def fetch_json (outcomes : Nat → FetchOutcome) (max_retries attempt : Nat) :
    List BrokerAct × Except FetchErr Unit :=
  match outcomes attempt with
  | .ok => ([.request], .ok ())
  | .otherError => ([.request], .error .other)
  | .readTimeout =>
    if h : max_retries ≤ attempt then ([.request], .error .readTimeout)
    else
      let rest := fetch_json outcomes max_retries (attempt + 1)
      (.request :: .sleepOneSecond :: rest.1, rest.2)
termination_by max_retries - attempt
decreasing_by omega

/-- What one download_file attempt encounters. -/
inductive NetOutcome where
  | ok
  | readTimeout
  | httpStatus (code : Nat)
  | transportError
  | diskWriteError
deriving DecidableEq, Repr

/-- The failure download_file propagates. -/
inductive DlErr where
  | readTimeout
  | httpStatus (code : Nat)
  | transport
  | disk
deriving DecidableEq, Repr

/-- The non-exceptional values download_file can produce: normal completion
(None in the source), or the un-awaited retry coroutine returned by the
except branch. -/
inductive DlRet where
  | completed
  | unawaitedRetryCoroutine
deriving DecidableEq, Repr

/-- BaseQueryClient.download_file (download.py 108-138). -/
def download_file (outcomes : Nat → NetOutcome) (max_retries attempt : Nat) :
    List BrokerAct × Except DlErr DlRet :=
  match outcomes attempt with
  | .ok => ([.request], .ok .completed)
  | .readTimeout => ([.request], .error .readTimeout)
  | .transportError => ([.request], .error .transport)
  | .diskWriteError => ([.request], .error .disk)
  | .httpStatus code =>
    if code = 404 then ([.request], .error (.httpStatus code))
    else if max_retries ≤ attempt then ([.request], .error (.httpStatus code))
    else ([.request], .ok .unawaitedRetryCoroutine)

/-- The trace of a run that times out on every attempt: requests separated
by one-second sleeps, max_retries requests in total. -/
def timeoutTrace : Nat → List BrokerAct
  | 0 => []
  | 1 => [.request]
  | n + 1 => .request :: .sleepOneSecond :: timeoutTrace n

theorem fetch_json_all_timeouts (outcomes : Nat → FetchOutcome) (max_retries attempt : Nat)
    (hout : ∀ i, outcomes i = .readTimeout) (h1 : 1 ≤ attempt) (h2 : attempt ≤ max_retries) :
    fetch_json outcomes max_retries attempt =
      (timeoutTrace (max_retries - attempt + 1), .error .readTimeout) := by
  by_cases h : max_retries ≤ attempt
  case pos =>
    have : max_retries - attempt = 0 := by omega
    rw [fetch_json, hout attempt]
    simp [h, this, timeoutTrace]
  case neg =>
    have ih := fetch_json_all_timeouts outcomes max_retries (attempt + 1) hout (by omega) (by omega)
    rw [fetch_json, hout attempt]
    simp only [h, dif_neg, not_false_eq_true, ih]
    have : max_retries - attempt + 1 = (max_retries - (attempt + 1) + 1) + 1 := by omega
    rw [this]
    rfl
termination_by max_retries - attempt
decreasing_by omega

/-- C4 counterexample: download_file does not retry a read timeout.  On a
first attempt that times out, with the default bound of three attempts, it
issues a single request, sleeps never, and propagates the timeout. -/
theorem C4_counterexample :
    download_file (fun _ => .readTimeout) 3 1 = ([.request], .error .readTimeout) := rfl

/-- C4 amended: fetch_json retries only read timeouts, with a bounded
attempt count and a fixed one-second sleep between attempts, propagating
the timeout after the bound and every other failure at once; download_file
never retries anything: timeouts, transport errors and disk-write failures
propagate on the first attempt, a 404 propagates, any other HTTP status
error propagates once the bound is reached, and below the bound the except
branch returns the un-awaited retry coroutine to the caller with no delay
and no further request. -/
theorem C4_amended_retry_policy (outcomes : Nat → FetchOutcome) (net : Nat → NetOutcome)
    (max_retries attempt : Nat) :
    ((∀ i, outcomes i = .readTimeout) → 1 ≤ attempt → attempt ≤ max_retries →
      fetch_json outcomes max_retries attempt =
        (timeoutTrace (max_retries - attempt + 1), .error .readTimeout)) ∧
    (outcomes attempt = .otherError →
      fetch_json outcomes max_retries attempt = ([.request], .error .other)) ∧
    (outcomes attempt = .ok →
      fetch_json outcomes max_retries attempt = ([.request], .ok ())) ∧
    (net attempt = .readTimeout →
      download_file net max_retries attempt = ([.request], .error .readTimeout)) ∧
    (net attempt = .transportError →
      download_file net max_retries attempt = ([.request], .error .transport)) ∧
    (net attempt = .diskWriteError →
      download_file net max_retries attempt = ([.request], .error .disk)) ∧
    (net attempt = .httpStatus 404 →
      download_file net max_retries attempt = ([.request], .error (.httpStatus 404))) ∧
    (∀ code, net attempt = .httpStatus code → code ≠ 404 → max_retries ≤ attempt →
      download_file net max_retries attempt = ([.request], .error (.httpStatus code))) ∧
    (∀ code, net attempt = .httpStatus code → code ≠ 404 → attempt < max_retries →
      download_file net max_retries attempt = ([.request], .ok .unawaitedRetryCoroutine)) := by
  refine ⟨fun hout h1 h2 => fetch_json_all_timeouts outcomes max_retries attempt hout h1 h2,
    ?_, ?_, ?_, ?_, ?_, ?_, ?_, ?_⟩
  · intro h
    rw [fetch_json, h]
  · intro h
    rw [fetch_json, h]
  · intro h
    rw [download_file, h]
  · intro h
    rw [download_file, h]
  · intro h
    rw [download_file, h]
  · intro h
    rw [download_file, h]
    rfl
  · intro code h hc hb
    rw [download_file, h]
    simp [hc, hb]
  · intro code h hc hb
    rw [download_file, h]
    simp [hc]
    omega

/-- Witness for the amended C4 theorem: the all-timeouts fetch trace with
the default bound, and the un-awaited download retry on a 500. -/
theorem C4_amended_retry_policy_witness :
    fetch_json (fun _ => .readTimeout) 3 1 =
      ([.request, .sleepOneSecond, .request, .sleepOneSecond, .request],
        .error .readTimeout) ∧
    download_file (fun _ => .httpStatus 500) 3 1 = ([.request], .ok .unawaitedRetryCoroutine) := by
  constructor
  · have h := (C4_amended_retry_policy (fun _ => .readTimeout) (fun _ => .httpStatus 500) 3 1).1
      (fun _ => rfl) (by omega) (by omega)
    rw [h]
    rfl
  · exact (C4_amended_retry_policy (fun _ => .readTimeout) (fun _ => .httpStatus 500) 3 1).2.2.2.2.2.2.2.2
      500 rfl (by omega) (by omega)

/-! ### Archive download bookkeeping, QueryClient.update_repository
(download.py 472-498)

The method looks up the token, downloads the archive to the key's zip path,
and on a normal return records a success lock entry; when the download
raises it records a failed entry and removes the partial file.  Because
download_file returns the un-awaited retry coroutine instead of raising for
a non-404 HTTP status below the retry bound, that case takes the success
path while the truncated partial file stays on disk. -/

/-- Insertion-ordered dict assignment d[k] = v. -/
def lockSet (k : String) (v : LockData) (m : List (String × LockData)) :
    List (String × LockData) :=
  if m.any (fun kv => kv.1 == k) then m.map (fun kv => if kv.1 == k then (k, v) else kv)
  else m ++ [(k, v)]

/-- A Release, src/package/repo.py lines 46-56. -/
structure Release where
  env : String
  org : String
  app : String
  version : String
  commit_sha : String
  studio_env : String
deriving DecidableEq, Repr

/-- The derived key env-org-app. -/
def Release.key (r : Release) : String := r.env ++ "-" ++ r.org ++ "-" ++ r.app

/-- makeLock, src/package/repo.py lines 76-85. -/
def makeLock (r : Release) (status : String) : LockData :=
  ⟨r.env, r.org, r.app, r.version, r.commit_sha, status, r.studio_env⟩

/-- State of the archive file cache_dir/{key}.zip after the attempt. -/
inductive ZipState where
  | absent
  | fullFile
  | truncatedIncomplete
deriving DecidableEq, Repr

/-- The pieces of QueryClient state update_repository touches. -/
structure RepoState where
  nextLock : List (String × LockData)
  zip : ZipState
deriving DecidableEq, Repr

/-- QueryClient.update_repository (download.py 472-498).  The download runs
with attempt 1 and the client default max_retries; a missing token copies
the previous entry and downloads nothing; a normal return of download_file
(including the un-awaited retry coroutine) takes the success branch; an
exception takes the except branch, which writes a failed entry and removes
the partial file. -/
def update_repository (hasToken : Bool) (prevEntry : Option LockData)
    (net : Nat → NetOutcome) (max_retries : Nat) (r : Release) (st : RepoState) : RepoState :=
  if !hasToken then
    match prevEntry with
    | some pv => { st with nextLock := lockSet (Release.key r) pv st.nextLock }
    | none => st
  else
    match (download_file net max_retries 1).2 with
    | .ok ret =>
      { nextLock := lockSet (Release.key r) (makeLock r "success") st.nextLock,
        zip := if ret = .completed then .fullFile else .truncatedIncomplete }
    | .error _ =>
      { nextLock := lockSet (Release.key r) (makeLock r "failed") st.nextLock,
        zip := .absent }

/-- A concrete release used to evaluate the download bookkeeping. -/
def releaseEx : Release := ⟨"prod", "org1", "app1", "1.0.0", "abc123", "prod"⟩

/-- C5 evaluation at the failing input: with a valid token and default
max_retries 3, an HTTP 500 on the first attempt makes update_repository
record a success lock entry and leave the truncated partial zip on disk,
because the except branch of download_file returns the retry coroutine
without awaiting it.  Failures that do raise (for example a read timeout,
or the 500 once the attempt bound is reached) behave as the claim states:
failed entry, partial file removed. -/
theorem C5_unawaited_retry_marks_success :
    update_repository true none (fun _ => .httpStatus 500) 3 releaseEx ⟨[], .absent⟩ =
      ⟨[("prod-org1-app1", makeLock releaseEx "success")], .truncatedIncomplete⟩ ∧
    update_repository true none (fun _ => .readTimeout) 3 releaseEx ⟨[], .absent⟩ =
      ⟨[("prod-org1-app1", makeLock releaseEx "failed")], .absent⟩ ∧
    update_repository true none (fun _ => .httpStatus 500) 1 releaseEx ⟨[], .absent⟩ =
      ⟨[("prod-org1-app1", makeLock releaseEx "failed")], .absent⟩ := by
  refine ⟨by decide, by decide, by decide⟩

/-! ### The lock store write, QueryClient.write_version_lock
(download.py 233-246)

The method runs
    with open(self.lock_path, "w") as f: json.dump(version_lock, f, indent=2)
and then computes per-environment statistics (no further file operations).
Opening with mode w truncates the lock file in place; the dump then writes
the serialized map into the same path.  There is no temporary file and no
rename. -/

/-- File-system operations relevant to the lock write. -/
inductive FsOp where
  | openTruncate (path : String)
  | writeAll (path : String) (data : String)
  | rename (src : String) (dst : String)
deriving DecidableEq, Repr

/-- The operations write_version_lock performs, in order: a truncating open
of the lock path, then the serialized dump into it. -/
def write_version_lock_ops (lockPath serialized : String) : List FsOp :=
  [.openTruncate lockPath, .writeAll lockPath serialized]

def isRename : FsOp → Bool
  | .rename _ _ => true
  | _ => false

/-- The paths an operation touches. -/
def fsOpTouches : FsOp → List String
  | .openTruncate p => [p]
  | .writeAll p _ => [p]
  | .rename s d => [s, d]

/-- A file system as an association of paths to contents. -/
abbrev Fs := List (String × String)

/-- Create or replace a path with the given contents. -/
def fsWrite (p v : String) (fs : Fs) : Fs :=
  (p, v) :: fs.filter (fun kv => kv.1 != p)

def applyFsOp (fs : Fs) : FsOp → Fs
  | .openTruncate p => fsWrite p "" fs
  | .writeAll p d => fsWrite p (((fs.lookup p).getD "") ++ d) fs
  | .rename src dst =>
    match fs.lookup src with
    | some v => fsWrite dst v (fs.filter (fun kv => kv.1 != src))
    | none => fs

/-- The shape the claim asserts: every operation before the last touches
only paths other than the lock path, and the last operation renames such a
temporary path onto the lock path. -/
def writeTempThenRename (ops : List FsOp) (lockPath : String) : Bool :=
  match ops.getLast? with
  | some (.rename src dst) =>
    dst == lockPath && src != lockPath &&
      ops.dropLast.all (fun op => (fsOpTouches op).all (fun p => p != lockPath))
  | _ => false

/-- C3 counterexample: the lock write has no temp-and-rename shape, and
between its two operations the lock file is observable holding neither the
old nor the new contents (it is empty after the truncating open). -/
theorem C3_counterexample :
    writeTempThenRename
        (write_version_lock_ops ".apps.lock.json" "new-lock-json") ".apps.lock.json" = false ∧
    List.scanl applyFsOp [(".apps.lock.json", "old-lock-json")]
        (write_version_lock_ops ".apps.lock.json" "new-lock-json") =
      [[(".apps.lock.json", "old-lock-json")],
       [(".apps.lock.json", "")],
       [(".apps.lock.json", "new-lock-json")]] := by
  refine ⟨rfl, by decide⟩

/-- C3 amended: on finish the lock store writes the new map directly to the
lock path with a truncating open followed by the dump; no rename and no
other path is involved, the final contents are the new serialization, and
the intermediate state after the truncating open is an observable state in
which the lock file holds neither the old nor the new contents (whenever
both are nonempty). -/
theorem C3_amended_direct_write (lockPath serialized : String) (fs : Fs) :
    ((write_version_lock_ops lockPath serialized).all (fun op => !isRename op) = true) ∧
    (∀ op ∈ write_version_lock_ops lockPath serialized, fsOpTouches op = [lockPath]) ∧
    (((write_version_lock_ops lockPath serialized).foldl applyFsOp fs).lookup lockPath =
      some serialized) ∧
    (∀ old, fs.lookup lockPath = some old → old ≠ "" → serialized ≠ "" →
      ∃ mid ∈ List.scanl applyFsOp fs (write_version_lock_ops lockPath serialized),
        mid.lookup lockPath ≠ some old ∧ mid.lookup lockPath ≠ some serialized) := by
  have hlook : ∀ v rest, (((lockPath, v) :: rest : Fs).lookup lockPath) = some v := by
    intro v rest
    simp [List.lookup]
  refine ⟨rfl, ?_, ?_, ?_⟩
  · intro op hop
    simp only [write_version_lock_ops, List.mem_cons, List.not_mem_nil, or_false] at hop
    rcases hop with rfl | rfl <;> rfl
  · show ((applyFsOp (applyFsOp fs (.openTruncate lockPath)) (.writeAll lockPath serialized)).lookup
        lockPath) = some serialized
    rw [show applyFsOp fs (.openTruncate lockPath) = fsWrite lockPath "" fs from rfl]
    rw [show fsWrite lockPath "" fs = (lockPath, "") :: fs.filter (fun kv => kv.1 != lockPath)
        from rfl]
    rw [show applyFsOp ((lockPath, "") :: fs.filter (fun kv => kv.1 != lockPath))
        (.writeAll lockPath serialized) =
      fsWrite lockPath
        (((((lockPath, "") :: fs.filter (fun kv => kv.1 != lockPath) : Fs).lookup lockPath).getD "")
          ++ serialized)
        ((lockPath, "") :: fs.filter (fun kv => kv.1 != lockPath)) from rfl]
    rw [hlook]
    simp [fsWrite, List.lookup]
  · intro old hold hne hser
    refine ⟨fsWrite lockPath "" fs, ?_, ?_, ?_⟩
    · show fsWrite lockPath "" fs ∈
        List.scanl applyFsOp fs [FsOp.openTruncate lockPath, FsOp.writeAll lockPath serialized]
      rw [List.scanl]
      rw [List.scanl]
      exact List.mem_cons_of_mem _ (List.mem_cons_self _ _)
    · rw [show fsWrite lockPath "" fs = (lockPath, "") :: fs.filter (fun kv => kv.1 != lockPath)
          from rfl]
      rw [hlook]
      simp
      exact fun h => hne h.symm
    · rw [show fsWrite lockPath "" fs = (lockPath, "") :: fs.filter (fun kv => kv.1 != lockPath)
          from rfl]
      rw [hlook]
      simp
      exact fun h => hser h.symm

/-- Witness for the amended C3 theorem at a concrete lock file. -/
theorem C3_amended_direct_write_witness :
    ∃ mid ∈ List.scanl applyFsOp [(".apps.lock.json", "old-lock-json")]
        (write_version_lock_ops ".apps.lock.json" "new-lock-json"),
      mid.lookup ".apps.lock.json" ≠ some "old-lock-json" ∧
      mid.lookup ".apps.lock.json" ≠ some "new-lock-json" := by
  exact (C3_amended_direct_write ".apps.lock.json" "new-lock-json"
      [(".apps.lock.json", "old-lock-json")]).2.2.2 "old-lock-json" (by decide) (by decide)
    (by decide)

/-! ### End of an acquisition run, QueryClient.update_apps
(download.py 407-423) and remove_undeployed_apps (download.py 248-252)

After all clusters are processed, update_apps runs
    self.remove_undeployed_apps()
    self.write_version_lock(self.next_version_lock)
in that order: the undeployed archives are unlinked first, and the new lock
file is written afterwards.  remove_undeployed_apps iterates the previous
lock keys and unlinks cache_dir/{key}.zip (missing_ok) for every key absent
from the new lock. -/

/-- Cache-level actions of the run finale. -/
inductive CacheOp where
  | unlinkZip (key : String)
  | writeLock (lock : List (String × LockData))
deriving DecidableEq, Repr

/-- remove_undeployed_apps (download.py 248-252) as the ordered list of
unlink operations it performs. -/
def remove_undeployed_apps_ops (prev next : List (String × LockData)) : List CacheOp :=
  prev.filterMap (fun kv =>
    if (next.lookup kv.1).isNone then some (CacheOp.unlinkZip kv.1) else none)

/-- The finale of update_apps (download.py 422-423): the unlinks of
remove_undeployed_apps followed by the lock write. -/
def update_apps_finale_ops (prev next : List (String × LockData)) : List CacheOp :=
  remove_undeployed_apps_ops prev next ++ [CacheOp.writeLock next]

/-- Cache directory state: which keys still have a zip archive, and the
lock file contents. -/
structure CacheState where
  zipKeys : List String
  lockFile : Option (List (String × LockData))
deriving DecidableEq, Repr

def applyCacheOp (st : CacheState) : CacheOp → CacheState
  | .unlinkZip k => { st with zipKeys := st.zipKeys.filter (fun z => z != k) }
  | .writeLock l => { st with lockFile := some l }

def runCacheOps (st : CacheState) (ops : List CacheOp) : CacheState :=
  ops.foldl applyCacheOp st

/-- The order the claim asserts: every write of the lock file comes before
every unlink. -/
def lockWritePrecedesUnlinks (ops : List CacheOp) : Bool :=
  match ops with
  | [] => true
  | CacheOp.writeLock _ :: rest => lockWritePrecedesUnlinks rest
  | CacheOp.unlinkZip _ :: rest => rest.all (fun op => !match op with
      | CacheOp.writeLock _ => true
      | _ => false)

/-- A previous lock with one key that disappears from the new lock. -/
def prevLockEx : List (String × LockData) :=
  [("prod-a-y", ⟨"prod", "a", "y", "1", "sha1", "success", "prod"⟩)]

/-- C9 counterexample: with a previous entry absent from the new lock, the
finale unlinks the archive first and writes the lock file last, so the lock
write does not precede the unlinks as claimed. -/
theorem C9_counterexample :
    update_apps_finale_ops prevLockEx [] =
      [CacheOp.unlinkZip "prod-a-y", CacheOp.writeLock []] ∧
    lockWritePrecedesUnlinks (update_apps_finale_ops prevLockEx []) = false := by
  refine ⟨rfl, rfl⟩

theorem runCacheOps_zip_filter (ops : List CacheOp) (st : CacheState) (k : String)
    (h : k ∉ st.zipKeys) : k ∉ (runCacheOps st ops).zipKeys := by
  induction ops generalizing st with
  | nil => exact h
  | cons op rest ih =>
    match op with
    | .unlinkZip k2 =>
      refine ih _ ?_
      intro hmem
      exact h (List.mem_of_mem_filter hmem)
    | .writeLock l => exact ih _ h

theorem runCacheOps_unlinked (ops : List CacheOp) (st : CacheState) (k : String)
    (h : CacheOp.unlinkZip k ∈ ops) : k ∉ (runCacheOps st ops).zipKeys := by
  induction ops generalizing st with
  | nil => exact absurd h (List.not_mem_nil _)
  | cons op rest ih =>
    rcases List.mem_cons.mp h with rfl | hrest
    · by_cases hr : CacheOp.unlinkZip k ∈ rest
      · exact ih _ hr
      · refine runCacheOps_zip_filter rest _ k ?_
        intro hmem
        have := List.of_mem_filter hmem
        simp at this
    · exact ih _ hrest

theorem lookup_some_mem {α β : Type} [BEq α] [LawfulBEq α] {k : α} {v : β} :
    ∀ {m : List (α × β)}, m.lookup k = some v → (k, v) ∈ m := by
  intro m
  induction m with
  | nil => intro h; simp [List.lookup] at h
  | cons kv t ih =>
    obtain ⟨a, b⟩ := kv
    intro h
    rw [List.lookup_cons] at h
    by_cases hk : (k == a) = true
    · rw [hk] at h
      obtain rfl : b = v := by injection h
      obtain rfl : k = a := eq_of_beq hk
      exact List.mem_cons_self _ _
    · rw [Bool.not_eq_true] at hk
      rw [hk] at h
      exact List.mem_cons_of_mem _ (ih h)

/-- C9 amended: at the end of the run the archives of the keys dropped from
the lock are unlinked first and the new lock file is written afterwards
(the last finale operation); after the finale the lock file holds the new
map and no archive remains for any key present in the previous lock but
absent from the new one. -/
theorem C9_amended_cleanup_then_write (prev next : List (String × LockData))
    (st : CacheState) :
    (update_apps_finale_ops prev next =
      remove_undeployed_apps_ops prev next ++ [CacheOp.writeLock next]) ∧
    ((runCacheOps st (update_apps_finale_ops prev next)).lockFile = some next) ∧
    (∀ k, (prev.lookup k).isSome → next.lookup k = none →
      k ∉ (runCacheOps st (update_apps_finale_ops prev next)).zipKeys) := by
  refine ⟨rfl, ?_, ?_⟩
  · unfold runCacheOps update_apps_finale_ops
    rw [List.foldl_append]
    rfl
  · intro k hk hnone
    refine runCacheOps_unlinked _ st k ?_
    unfold update_apps_finale_ops remove_undeployed_apps_ops
    refine List.mem_append_left _ ?_
    rw [List.mem_filterMap]
    rw [Option.isSome_iff_exists] at hk
    obtain ⟨v, hv⟩ := hk
    refine ⟨(k, v), lookup_some_mem hv, ?_⟩
    simp [hnone]

/-- Witness for the amended C9 theorem at a concrete previous lock. -/
theorem C9_amended_cleanup_then_write_witness :
    "prod-a-y" ∉ (runCacheOps ⟨["prod-a-y", "prod-a-x"], none⟩
      (update_apps_finale_ops prevLockEx [])).zipKeys ∧
    (runCacheOps ⟨["prod-a-y", "prod-a-x"], none⟩
      (update_apps_finale_ops prevLockEx [])).lockFile = some [] := by
  constructor
  · exact (C9_amended_cleanup_then_write prevLockEx [] ⟨["prod-a-y", "prod-a-x"], none⟩).2.2
      "prod-a-y" (by decide) (by decide)
  · exact (C9_amended_cleanup_then_write prevLockEx [] ⟨["prod-a-y", "prod-a-x"], none⟩).2.1

/-! ### The streaming iterator core group_by, src/package/iter.py

IterContainer.group_by (iter.py 164-172) sorts the elements by the key
function using the stable Python sort (iter.py 91-96) and then runs
itertools.groupby over the sorted stream, emitting one materialized group
per maximal run of equal keys, each passed to map_func together with its
key.  Apps.group_by (apps.py 515-518) delegates to it with a tuple-valued
key.  The embedding keeps the (key, group) pairs, instantiating map_func
with pairing; the stable sort is embedded as insertion sort on the
non-strict key order (extensionally equal to any stable sort by key), and
groupby is embedded structurally with a fuel argument bounded by the list
length. -/

/-- The stable ascending sort by key of IterContainer.__sorted. -/
def sortByKey {T K : Type} [LinearOrder K] (key : T → K) (l : List T) : List T :=
  l.insertionSort (fun a b => key a ≤ key b)

/-- itertools.groupby: maximal runs of adjacent elements whose key equals
the key at the start of the run.  The fuel argument only drives structural
termination; it never runs out when it starts at the list length. -/
def pyGroupbyAux {T K : Type} [DecidableEq K] (key : T → K) : Nat → List T → List (K × List T)
  | _, [] => []
  | 0, _ :: _ => []
  | fuel + 1, x :: xs =>
    (key x, x :: xs.takeWhile (fun y => decide (key y = key x))) ::
      pyGroupbyAux key fuel (xs.dropWhile (fun y => decide (key y = key x)))

/-- itertools.groupby over a whole list. -/
def pyGroupby {T K : Type} [DecidableEq K] (key : T → K) (l : List T) : List (K × List T) :=
  pyGroupbyAux key l.length l

/-- IterContainer.group_by (iter.py 164-172): stable sort by key, then
adjacent grouping. -/
def IterContainer.group_by {T K : Type} [LinearOrder K] (key : T → K) (l : List T) :
    List (K × List T) :=
  pyGroupby key (sortByKey key l)

theorem pyGroupbyAux_fuel_irrelevant {T K : Type} [DecidableEq K] (key : T → K) :
    ∀ (f1 f2 : Nat) (m : List T), m.length ≤ f1 → m.length ≤ f2 →
      pyGroupbyAux key f1 m = pyGroupbyAux key f2 m := by
  intro f1
  induction f1 with
  | zero =>
    intro f2 m h1 h2
    match m with
    | [] => cases f2 <;> rfl
    | x :: xs => simp at h1
  | succ n ih =>
    intro f2 m h1 h2
    match m with
    | [] => cases f2 <;> rfl
    | x :: xs =>
      match f2 with
      | 0 => simp at h2
      | f2' + 1 =>
        show (_, _) :: pyGroupbyAux key n _ = (_, _) :: pyGroupbyAux key f2' _
        have hd : (xs.dropWhile (fun y => decide (key y = key x))).length ≤ xs.length :=
          (List.dropWhile_sublist _).length_le
        rw [ih f2' (xs.dropWhile (fun y => decide (key y = key x)))
          (by simp at h1; omega) (by simp at h2; omega)]

theorem pyGroupby_nil {T K : Type} [DecidableEq K] (key : T → K) :
    pyGroupby key ([] : List T) = [] := rfl

theorem pyGroupby_cons {T K : Type} [DecidableEq K] (key : T → K) (x : T) (xs : List T) :
    pyGroupby key (x :: xs) =
      (key x, x :: xs.takeWhile (fun y => decide (key y = key x))) ::
        pyGroupby key (xs.dropWhile (fun y => decide (key y = key x))) := by
  show pyGroupbyAux key (xs.length + 1) (x :: xs) = _
  unfold pyGroupbyAux
  rw [pyGroupbyAux_fuel_irrelevant key xs.length
    (xs.dropWhile (fun y => decide (key y = key x))).length
    (xs.dropWhile (fun y => decide (key y = key x)))
    ((List.dropWhile_sublist _).length_le) (le_refl _)]
  rfl

/-- The groups concatenate back to the grouped list. -/
theorem pyGroupby_flatten {T K : Type} [DecidableEq K] (key : T → K) :
    ∀ (m : List T), ((pyGroupby key m).map Prod.snd).flatten = m := by
  suffices h : ∀ (n : Nat) (m : List T), m.length ≤ n →
      ((pyGroupby key m).map Prod.snd).flatten = m by
    intro m
    exact h m.length m (le_refl _)
  intro n
  induction n with
  | zero =>
    intro m hm
    match m with
    | [] => rfl
    | x :: xs => simp at hm
  | succ n ih =>
    intro m hm
    match m with
    | [] => rfl
    | x :: xs =>
      rw [pyGroupby_cons]
      have hd : (xs.dropWhile (fun y => decide (key y = key x))).length ≤ n := by
        have := (List.dropWhile_sublist (l := xs) (fun y => decide (key y = key x))).length_le
        simp at hm
        omega
      simp only [List.map_cons, List.flatten_cons]
      rw [ih _ hd]
      rw [List.cons_append]
      rw [List.takeWhile_append_dropWhile]

theorem filter_orderedInsert_eqkey {T K : Type} [LinearOrder K] (key : T → K) (x : T) (c : K)
    (hx : key x = c) :
    ∀ (l : List T),
      (List.orderedInsert (fun a b => key a ≤ key b) x l).filter
          (fun y => decide (key y = c)) =
        x :: l.filter (fun y => decide (key y = c)) := by
  intro l
  induction l with
  | nil => simp [List.orderedInsert, hx]
  | cons b t ih =>
    by_cases hr : key x ≤ key b
    · rw [List.orderedInsert, if_pos hr]
      simp [hx]
    · rw [List.orderedInsert, if_neg hr]
      have hb : ¬ (key b = c) := by
        intro hbc
        exact hr (by rw [hx, hbc])
      rw [List.filter_cons, List.filter_cons]
      simp only [hb, decide_False, Bool.false_eq_true, if_false]
      rw [ih]

theorem filter_orderedInsert_nekey {T K : Type} [LinearOrder K] (key : T → K) (x : T) (c : K)
    (hx : ¬ (key x = c)) :
    ∀ (l : List T),
      (List.orderedInsert (fun a b => key a ≤ key b) x l).filter
          (fun y => decide (key y = c)) =
        l.filter (fun y => decide (key y = c)) := by
  intro l
  induction l with
  | nil => simp [List.orderedInsert, hx]
  | cons b t ih =>
    by_cases hr : key x ≤ key b
    · rw [List.orderedInsert, if_pos hr]
      rw [List.filter_cons]
      simp only [hx, decide_False, Bool.false_eq_true, if_false]
    · rw [List.orderedInsert, if_neg hr]
      rw [List.filter_cons, List.filter_cons]
      by_cases hbc : key b = c
      · simp only [hbc, decide_True, if_true]
        rw [ih]
      · simp only [hbc, decide_False, Bool.false_eq_true, if_false]
        rw [ih]

/-- Stability of the sort: per-key filtering commutes with the stable sort,
so each key class keeps its original relative order. -/
theorem sortByKey_filter {T K : Type} [LinearOrder K] (key : T → K) (l : List T) (c : K) :
    (sortByKey key l).filter (fun y => decide (key y = c)) =
      l.filter (fun y => decide (key y = c)) := by
  induction l with
  | nil => rfl
  | cons a t ih =>
    show (List.orderedInsert _ a (sortByKey key t)).filter _ = _
    by_cases ha : key a = c
    · rw [filter_orderedInsert_eqkey key a c ha, ih, List.filter_cons]
      simp [ha]
    · rw [filter_orderedInsert_nekey key a c ha, ih, List.filter_cons]
      simp [ha]

theorem sortByKey_sorted {T K : Type} [LinearOrder K] (key : T → K) (l : List T) :
    (sortByKey key l).Pairwise (fun a b => key a ≤ key b) := by
  haveI : IsTotal T (fun a b => key a ≤ key b) := ⟨fun a b => le_total (key a) (key b)⟩
  haveI : IsTrans T (fun a b => key a ≤ key b) := ⟨fun a b c hab hbc => le_trans hab hbc⟩
  exact List.sorted_insertionSort _ l

theorem sorted_filter_eq_takeWhile {T K : Type} [LinearOrder K] (key : T → K) (x : T) :
    ∀ (m : List T), (∀ y ∈ m, key x ≤ key y) →
      m.Pairwise (fun a b => key a ≤ key b) →
      m.filter (fun y => decide (key y = key x)) =
        m.takeWhile (fun y => decide (key y = key x)) := by
  intro m
  induction m with
  | nil => simp
  | cons b t ih =>
    intro hall hpw
    obtain ⟨hb, hpt⟩ := List.pairwise_cons.mp hpw
    by_cases hkb : key b = key x
    · rw [List.filter_cons, List.takeWhile_cons]
      simp only [hkb, decide_True, if_true]
      rw [ih ?_ hpt]
      intro z hz
      rw [← hkb]
      exact hb z hz
    · have hlt : key x < key b :=
        lt_of_le_of_ne (hall b (List.mem_cons_self _ _)) (fun h => hkb h.symm)
      rw [List.filter_cons, List.takeWhile_cons]
      simp only [hkb, decide_False, Bool.false_eq_true, if_false]
      rw [List.filter_eq_nil_iff.mpr ?_]
      intro z hz
      have : key x < key z := lt_of_lt_of_le hlt (hb z hz)
      simp
      intro hzx
      rw [hzx] at this
      exact lt_irrefl _ this

theorem dropWhile_key_gt {T K : Type} [LinearOrder K] (key : T → K) (x : T) :
    ∀ (m : List T), (∀ y ∈ m, key x ≤ key y) →
      m.Pairwise (fun a b => key a ≤ key b) →
      ∀ z ∈ m.dropWhile (fun y => decide (key y = key x)), key x < key z := by
  intro m
  induction m with
  | nil => simp
  | cons b t ih =>
    intro hall hpw
    obtain ⟨hb, hpt⟩ := List.pairwise_cons.mp hpw
    by_cases hkb : key b = key x
    · rw [List.dropWhile_cons]
      simp only [hkb, decide_True, if_true]
      refine ih ?_ hpt
      intro z hz
      rw [← hkb]
      exact hb z hz
    · rw [List.dropWhile_cons]
      simp only [hkb, decide_False, Bool.false_eq_true, if_false]
      intro z hz
      rcases List.mem_cons.mp hz with rfl | hz'
      · exact lt_of_le_of_ne (hall z (List.mem_cons_self _ _)) (fun h => hkb h.symm)
      · exact lt_of_lt_of_le
          (lt_of_le_of_ne (hall b (List.mem_cons_self _ _)) (fun h => hkb h.symm)) (hb z hz')

theorem pyGroupby_sorted_spec {T K : Type} [LinearOrder K] (key : T → K) :
    ∀ (n : Nat) (m : List T), m.length ≤ n →
      m.Pairwise (fun a b => key a ≤ key b) →
      (∀ p ∈ pyGroupby key m,
        p.2 = m.filter (fun y => decide (key y = p.1)) ∧ p.2 ≠ []) ∧
      (pyGroupby key m).Pairwise (fun p q => p.1 < q.1) := by
  intro n
  induction n with
  | zero =>
    intro m hm hpw
    match m with
    | [] => exact ⟨by simp [pyGroupby_nil], by simp [pyGroupby_nil]⟩
    | x :: xs => simp at hm
  | succ n ih =>
    intro m hm hpw
    match m with
    | [] => exact ⟨by simp [pyGroupby_nil], by simp [pyGroupby_nil]⟩
    | x :: xs =>
      obtain ⟨hx, hpxs⟩ := List.pairwise_cons.mp hpw
      have hd_sub : (xs.dropWhile (fun y => decide (key y = key x))).Sublist xs :=
        List.dropWhile_sublist _
      have hd_len : (xs.dropWhile (fun y => decide (key y = key x))).length ≤ n := by
        have := hd_sub.length_le
        simp at hm
        omega
      have hd_pw : (xs.dropWhile (fun y => decide (key y = key x))).Pairwise
          (fun a b => key a ≤ key b) := hpxs.sublist hd_sub
      have hd_gt := dropWhile_key_gt key x xs hx hpxs
      obtain ⟨ihspec, ihpw⟩ := ih _ hd_len hd_pw
      have hgroupkey_gt : ∀ q ∈ pyGroupby key (xs.dropWhile (fun y => decide (key y = key x))),
          key x < q.1 := by
        intro q hq
        obtain ⟨hfil2, hne⟩ := ihspec q hq
        have : ∃ z ∈ xs.dropWhile (fun y => decide (key y = key x)),
            decide (key z = q.1) = true := by
          by_contra hcon
          push_neg at hcon
          have : (xs.dropWhile (fun y => decide (key y = key x))).filter
              (fun y => decide (key y = q.1)) = [] := by
            refine List.filter_eq_nil_iff.mpr ?_
            intro a ha
            simp only [Bool.not_eq_true]
            have := hcon a ha
            simpa using this
          rw [hfil2] at hne
          exact hne this
        obtain ⟨z, hz, hzk⟩ := this
        have hzk' : key z = q.1 := by simpa using hzk
        rw [← hzk']
        exact hd_gt z hz
      rw [pyGroupby_cons]
      constructor
      · intro p hp
        rcases List.mem_cons.mp hp with rfl | hp'
        · constructor
          · show x :: xs.takeWhile (fun y => decide (key y = key x)) =
              (x :: xs).filter (fun y => decide (key y = key x))
            rw [List.filter_cons]
            simp only [decide_True, if_true]
            rw [sorted_filter_eq_takeWhile key x xs hx hpxs]
          · simp
        · obtain ⟨hfil, hne⟩ := ihspec p hp'
          have hkp_gt : key x < p.1 := hgroupkey_gt p hp'
          refine ⟨?_, hne⟩
          rw [hfil]
          rw [List.filter_cons]
          have hxp : ¬ (key x = p.1) := ne_of_lt hkp_gt
          simp only [hxp, decide_False, Bool.false_eq_true, if_false]
          conv_rhs => rw [← List.takeWhile_append_dropWhile
            (fun y => decide (key y = key x)) xs]
          rw [List.filter_append]
          have htw : (xs.takeWhile (fun y => decide (key y = key x))).filter
              (fun y => decide (key y = p.1)) = [] := by
            refine List.filter_eq_nil_iff.mpr ?_
            intro a ha
            have hpa : key a = key x := by simpa using List.mem_takeWhile_imp ha
            simp only [Bool.not_eq_true]
            simp
            intro hap
            rw [hpa] at hap
            exact hxp hap
          rw [htw, List.nil_append]
      · refine List.pairwise_cons.mpr ⟨?_, ihpw⟩
        intro q hq
        exact hgroupkey_gt q hq

theorem pairwise_keys_unique {T K : Type} [LinearOrder K] {G : List (K × List T)}
    (h : G.Pairwise (fun p q => p.1 < q.1)) :
    ∀ p ∈ G, ∀ q ∈ G, p.1 = q.1 → p = q := by
  induction G with
  | nil =>
    intro p hp
    simp at hp
  | cons g t ih =>
    intro p hp q hq heq
    obtain ⟨hg, hpt⟩ := List.pairwise_cons.mp h
    rcases List.mem_cons.mp hp with rfl | hp' <;> rcases List.mem_cons.mp hq with rfl | hq'
    · rfl
    · exact absurd heq (ne_of_lt (hg q hq'))
    · exact absurd heq.symm (ne_of_lt (hg p hp'))
    · exact ih hpt p hp' q hq' heq

/-- C6: group_by partitions its input.  The groups concatenate to a
permutation of the input, the group lengths sum to the input length, each
group is exactly the input filtered to its key (so it keeps the original
relative order: stability), the groups are emitted in strictly ascending
key order, and every element of the input lies in exactly one group. -/
theorem C6_group_by_partitions {T K : Type} [LinearOrder K] (key : T → K) (l : List T) :
    (((IterContainer.group_by key l).map Prod.snd).flatten.Perm l) ∧
    (((IterContainer.group_by key l).map (fun p => p.2.length)).sum = l.length) ∧
    (∀ p ∈ IterContainer.group_by key l,
      p.2 = l.filter (fun y => decide (key y = p.1)) ∧ p.2 ≠ []) ∧
    ((IterContainer.group_by key l).Pairwise (fun p q => p.1 < q.1)) ∧
    (∀ x ∈ l, ∃! p, p ∈ IterContainer.group_by key l ∧ x ∈ p.2) := by
  have hsorted := sortByKey_sorted key l
  have hperm : (sortByKey key l).Perm l := List.perm_insertionSort _ l
  have hflat : ((IterContainer.group_by key l).map Prod.snd).flatten = sortByKey key l :=
    pyGroupby_flatten key (sortByKey key l)
  have hspec := pyGroupby_sorted_spec key (sortByKey key l).length (sortByKey key l)
    (le_refl _) hsorted
  refine ⟨?_, ?_, ?_, hspec.2, ?_⟩
  · rw [hflat]
    exact hperm
  · have hcomp : ((IterContainer.group_by key l).map (fun p => p.2.length)) =
        (((IterContainer.group_by key l).map Prod.snd).map List.length) := by
      rw [List.map_map]
      rfl
    rw [hcomp, ← List.length_flatten, hflat]
    exact hperm.length_eq
  · intro p hp
    obtain ⟨hfil, hne⟩ := hspec.1 p hp
    refine ⟨?_, hne⟩
    rw [hfil, sortByKey_filter]
  · intro x hx
    have hx' : x ∈ ((IterContainer.group_by key l).map Prod.snd).flatten := by
      rw [hflat]
      exact (hperm.mem_iff).mpr hx
    rw [List.mem_flatten] at hx'
    obtain ⟨g, hg, hxg⟩ := hx'
    rw [List.mem_map] at hg
    obtain ⟨p, hpG, rfl⟩ := hg
    refine ⟨p, ⟨hpG, hxg⟩, ?_⟩
    rintro q ⟨hqG, hxq⟩
    have hkp : key x = p.1 := by
      have hfil := (hspec.1 p hpG).1
      rw [hfil] at hxg
      have := List.of_mem_filter hxg
      simpa using this
    have hkq : key x = q.1 := by
      have hfil := (hspec.1 q hqG).1
      rw [hfil] at hxq
      have := List.of_mem_filter hxq
      simpa using this
    exact pairwise_keys_unique hspec.2 q hqG p hpG (by rw [← hkq, hkp])

/-- Witness for the C6 theorem at a concrete grouping by parity. -/
theorem C6_group_by_partitions_witness :
    ((1, [3, 5]) : Nat × List Nat).2 = [3, 4, 5].filter (fun y => decide (y % 2 = 1)) ∧
    ((1, [3, 5]) : Nat × List Nat).2 ≠ [] :=
  (C6_group_by_partitions (fun n : Nat => n % 2) [3, 4, 5]).2.2.1 (1, [3, 5]) (by decide)
